import Mathlib

/-!
Verification of the BE content-generation pipeline.

This file gives a shallow embedding of the parts of the code base that the
verified properties speak about:

* `src/scenario/exaone_v3/scenario_parser.py` — the rule-based shot segmenter
  (`parse_scenario`), embedded over `List Char` texts with exact rational
  arithmetic in place of Python floats (`round(x, 2)` becomes round-half-even
  at two decimals over `ℚ`).
* `src/scenario/exaone/dialogue_validator.py` — the dialogue
  generation/validation retry loop (`validate_with_retry`) and the JSON-verdict
  post-processing of `validate_dialogue`; the LLM calls are oracles.
* `src/scenario/exaone/scenario_validator.py` — the scenario validator's
  verdict post-processing.
* `src/api/api.py` — the merge gateway: session path handling, the periodic
  and startup cleanup sweeps, and the merge endpoints, over an explicit
  file-system state (a list of resolved paths / timestamped entries).
* `src/video/i2v/wan2/api.py` — the project-level concat endpoint.

Python strings are modelled as `List Char` (Python indexes and measures
strings by code points, as does `List.length` on `List Char`).  Fallible
Python code (exceptions) is modelled with `Option`/explicit outcome types.
-/

/-! ## Python string primitives over `List Char` -/

/-- Python `pat in s` (substring containment). -/
def containsSub (pat : List Char) : List Char → Bool
  | [] => pat.isEmpty
  | c :: rest => pat.isPrefixOf (c :: rest) || containsSub pat rest

/-- Worker for `replaceAll`.  The scan consumes at least one character per
step, so with `fuel = s.length` the fuel never runs out; the fuel only makes
the recursion structural (well-founded recursion does not reduce in the
kernel). -/
def replaceAllGo (pat rep : List Char) : ℕ → List Char → List Char
  | 0, s => s
  | _ + 1, [] => []
  | fuel + 1, c :: rest =>
    if pat.isPrefixOf (c :: rest) && !pat.isEmpty then
      rep ++ replaceAllGo pat rep fuel (List.drop (pat.length - 1) rest)
    else
      c :: replaceAllGo pat rep fuel rest

/-- Python `s.replace(pat, rep)`: left-to-right, non-overlapping, the
replacement text is not rescanned. -/
def replaceAll (pat rep s : List Char) : List Char := replaceAllGo pat rep s.length s

/-- Worker for `splitOnSub`; `acc` is the current fragment, reversed; the fuel
starts at the length of the scanned text and never runs out. -/
def splitOnAux (pat : List Char) : ℕ → List Char → List Char → List (List Char)
  | 0, _, acc => [acc.reverse]
  | _ + 1, [], acc => [acc.reverse]
  | fuel + 1, c :: rest, acc =>
    if pat.isPrefixOf (c :: rest) && !pat.isEmpty then
      acc.reverse :: splitOnAux pat fuel (List.drop (pat.length - 1) rest) []
    else
      splitOnAux pat fuel rest (c :: acc)

/-- Python `s.split(pat)` for a non-empty separator: non-overlapping,
left-to-right, empty fragments kept. -/
def splitOnSub (pat s : List Char) : List (List Char) := splitOnAux pat s.length s []

/-- Worker for `splitAnyChar`. -/
def splitAnyAux (seps : List Char) : List Char → List Char → List (List Char)
  | [], acc => [acc.reverse]
  | c :: rest, acc =>
    if seps.contains c then acc.reverse :: splitAnyAux seps rest []
    else splitAnyAux seps rest (c :: acc)

/-- Python `re.split(r'[c₁c₂…]', s)`: split at every occurrence of any of the
given characters, empty fragments kept. -/
def splitAnyChar (seps s : List Char) : List (List Char) := splitAnyAux seps s []

/-- Python `s.strip()` (the texts involved only use ASCII whitespace). -/
def stripChars (s : List Char) : List Char :=
  ((s.dropWhile Char.isWhitespace).reverse.dropWhile Char.isWhitespace).reverse

/-- Python `s[a:b]` for `0 ≤ a ≤ b` (clamped at the ends like Python). -/
def sliceList (a b : ℕ) (s : List Char) : List Char := (s.take b).drop a

/-- Worker for `splitKeepSeps`; the fuel starts at the length of the scanned
text and never runs out. -/
def splitKeepSepsGo (alts : List (List Char)) : ℕ → List Char → List Char → List (List Char)
  | 0, _, acc => [acc.reverse]
  | _ + 1, [], acc => [acc.reverse]
  | fuel + 1, c :: rest, acc =>
    match alts.find? (fun a => a.isPrefixOf (c :: rest) && !a.isEmpty) with
    | some a => acc.reverse :: a :: splitKeepSepsGo alts fuel (List.drop (a.length - 1) rest) []
    | none => splitKeepSepsGo alts fuel rest (c :: acc)

/-- Python `re.split(r'(alt₁|alt₂|…)', s)` with one capture group: the result
alternates text fragments and matched separators; at each position the
alternatives are tried in order (leftmost match, first alternative). -/
def splitKeepSeps (alts : List (List Char)) (s : List Char) : List (List Char) :=
  splitKeepSepsGo alts s.length s []

/-- Worker for `chunkEvery`; the fuel starts at the list length and, for
`g ≥ 1` (the only case arising), never runs out. -/
def chunkGo (g : ℕ) : ℕ → List (List Char) → List (List (List Char))
  | 0, _ => []
  | _ + 1, [] => []
  | fuel + 1, x :: xs => (x :: xs).take g :: chunkGo g fuel (List.drop g (x :: xs))

/-- Python `for i in range(0, len(l), g): groups.append(l[i:i+g])`.
`g = 0` never occurs at the call site (it would raise in Python). -/
def chunkEvery (g : ℕ) (l : List (List Char)) : List (List (List Char)) :=
  if g = 0 then [] else chunkGo g l.length l

/-! ## Rational model of Python `round(x, 2)`

Python `round` rounds half to even.  The segmenter's times are modelled with
exact rationals in place of IEEE floats.  The arithmetic is phrased over
integer numerator/denominator pairs so that the kernel can evaluate it on
concrete inputs. -/

/-- Round the rational `a / b` (for `b > 0`) to the nearest integer, halves to
even.  `a / b` is floor division on `ℤ`, and `r2 = 2·b·(a/b - ⌊a/b⌋)` compares
the fractional part against `1/2` without leaving `ℤ`. -/
def rheFrac (a b : ℤ) : ℤ :=
  let f := a / b
  let r2 := 2 * (a - f * b)
  if r2 < b then f
  else if b < r2 then f + 1
  else if f % 2 = 0 then f else f + 1

/-- Python `round(q, 2)`: round to two decimal places, halves to even.
`100 * q = (100 * q.num) / q.den`, so this is `rheFrac` of `100·q`, divided
back by 100. -/
def round2 (q : ℚ) : ℚ := Rat.divInt (rheFrac (100 * q.num) q.den) 100

/-! ## `src/scenario/exaone_v3/scenario_parser.py` -/

/-- `scenario_parser.py` line 24: `max(4, video_duration // target_scene_duration)`. -/
def targetSceneCount (video_duration target_scene_duration : ℕ) : ℕ :=
  max 4 (video_duration / target_scene_duration)

/-- The `scene_separators` list of `parse_scenario` (lines 29–40). -/
def scene_separators : List (List Char) :=
  [("화면 전환이 되고").data, ("화면 전환되고").data, ("화면이 전환되고").data,
   ("그 다음").data, ("이후").data, ("다음으로").data, ("그리고").data,
   ("->").data, ("→").data, ("장면 전환").data]

/-- The replacement marker `" [SCENE_BREAK] "` (line 47). -/
def sceneBreakMarker : List Char := (" [SCENE_BREAK] ").data

/-- The split token `"[SCENE_BREAK]"` (lines 51–52). -/
def sceneBreakToken : List Char := ("[SCENE_BREAK]").data

/-- The connective alternatives of the fine split regex (line 99). -/
def connectives : List (List Char) :=
  [("하고").data, ("하며").data, ("그리고").data, ("또한").data,
   ("이후").data, ("다음").data, ("그 다음").data]

/-- The per-scene body of the fine-split loop (lines 97–118): split around the
connectives keeping them, then re-join non-connective parts with single spaces,
flushing the accumulator at each connective. -/
def connectiveSplit (scene : List Char) : List (List Char) :=
  let parts := splitKeepSeps connectives scene
  let st := parts.foldl
    (fun (st : List (List Char) × List Char) part =>
      let p := stripChars part
      if p.isEmpty then st
      else if p ∈ connectives then
        if st.2.isEmpty then st else (st.1 ++ [stripChars st.2], [])
      else
        if st.2.isEmpty then (st.1, p) else (st.1, st.2 ++ [' '] ++ p))
    ([], [])
  if st.2.isEmpty then st.1 else st.1 ++ [stripChars st.2]

/-- The `while len(scenes) < 4 and scenes` padding loop (lines 173–174):
repeat the last scene up to length 4 (no-op on the empty list). -/
def padTo4 (l : List (List Char)) : List (List Char) :=
  match l with
  | [] => []
  | x :: xs => (x :: xs) ++ List.replicate (4 - (x :: xs).length) ((x :: xs).getLast (by simp))

/-- Lines 28–176 of `parse_scenario`: produce the cleaned scene list from the
scenario text (everything before time assignment). -/
def computeScenes (scenario : List Char) (video_duration target_scene_duration : ℕ) :
    List (List Char) :=
  let T := targetSceneCount video_duration target_scene_duration
  -- lines 42–48: replace each present separator by the marker
  let temp := scene_separators.foldl
    (fun t sep => if containsSub sep t then replaceAll sep sceneBreakMarker t else t) scenario
  -- lines 50–58: split on the marker, else on '.'
  let raw_scenes :=
    if containsSub sceneBreakToken temp then splitOnSub sceneBreakToken temp
    else splitAnyChar ['.'] scenario
  -- lines 60–65: strip, drop fragments of length ≤ 15
  let scenes0 := (raw_scenes.map stripChars).filter (fun c => !c.isEmpty && decide (15 < c.length))
  -- lines 69–81: too many scenes (len > 1.5·T) → group and cut to T
  let scenes1 :=
    if 3 * T < 2 * scenes0.length then
      ((chunkEvery (scenes0.length / T) scenes0).map (List.intercalate [' '])).take T
    else scenes0
  -- lines 83–151: the under-populated branches
  let scenes5 :=
    if scenes1.length < 4 then
      -- lines 87–92: single scene → comma split
      let s2 := match scenes1 with
        | [text] =>
          ((splitAnyChar [','] text).map stripChars).filter
            (fun s => !s.isEmpty && decide (10 < s.length))
        | _ => scenes1
      -- lines 94–122: connective split
      let s3 :=
        if s2.length < 4 then
          (s2.foldl (fun acc scene => acc ++ connectiveSplit scene) []).filter
            (fun s => decide (10 < s.length))
        else s2
      -- lines 124–137: four equal chunks of the original text
      if s3.length < 4 then
        let original := stripChars scenario
        let cs := original.length / 4
        (List.range 4).filterMap (fun i =>
          let st := i * cs
          let en := if i < 3 then st + cs else original.length
          let chunk := stripChars (sliceList st en original)
          if chunk.isEmpty then none else some chunk)
      else s3
    else if scenes1.length < T / 2 then
      -- lines 139–151 (the inner branch requires len = 1, unreachable when len ≥ 4)
      match scenes1 with
      | [text] =>
        let s := ((splitAnyChar [',', '.'] text).map stripChars).filter
          (fun x => !x.isEmpty && decide (15 < x.length))
        if s.length < T then List.replicate T (stripChars scenario) else s
      | _ => scenes1
    else scenes1
  -- lines 153–156: guarantee at least one scene
  let scenes6 := if scenes5.isEmpty then [stripChars scenario] else scenes5
  -- lines 158–176: final forced four-way chunking
  if scenes6.length < 4 then
    let original := List.intercalate [' '] scenes6
    let cs := max 10 (original.length / 4)
    let chunks := (List.range 4).filterMap (fun i =>
      let st := i * cs
      let en := if i < 3 then min (st + cs) original.length else original.length
      let chunk := stripChars (sliceList st en original)
      if chunk.isEmpty then none else some chunk)
    padTo4 chunks
  else scenes6

/-- One timetable entry (lines 191–195). -/
structure Shot where
  time_start : ℚ
  time_end : ℚ
  korean_description : List Char
deriving DecidableEq

/-- Lines 183–195 unrolled: shot `i` runs from `round(i·(D/N), 2)` to
`round((i+1)·(D/N), 2)`, the last shot's end overridden to the full duration.
`i·(D/N)` is written as the single fraction `Rat.divInt (i·D) N`
(`duration_per_scene = video_duration / scene_count` at line 180). -/
def assignAux (D N : ℕ) : ℕ → List (List Char) → List Shot
  | _, [] => []
  | i, d :: rest =>
    { time_start := round2 (Rat.divInt (i * D) N)
      time_end := if i = N - 1 then (D : ℚ) else round2 (Rat.divInt ((i + 1) * D) N)
      korean_description := d } :: assignAux D N (i + 1) rest

/-- Lines 178–195: assign times to the scene list. -/
def assignTimes (scenes : List (List Char)) (video_duration : ℕ) : List Shot :=
  assignAux video_duration scenes.length 0 scenes

/-- `parse_scenario(scenario, video_duration, target_scene_duration)`
(`scenario_parser.py` lines 4–201).  Returns `none` where Python raises
(`target_scene_duration = 0`, or an empty final scene list, both
`ZeroDivisionError`s). -/
def parse_scenario (scenario : String) (video_duration : ℕ)
    (target_scene_duration : ℕ) : Option (List Shot) :=
  if target_scene_duration = 0 then none
  else
    let scenes := computeScenes scenario.data video_duration target_scene_duration
    if scenes.isEmpty then none
    else some (assignTimes scenes video_duration)

/-! ## Properties of the time assignment -/

theorem rheFrac_int_one (n : ℤ) : rheFrac n 1 = n := by
  simp [rheFrac]

theorem round2_intCast (n : ℤ) : round2 (n : ℚ) = n := by
  have h1 : rheFrac (100 * (n : ℚ).num) (n : ℚ).den = 100 * n := by
    rw [Rat.num_intCast, Rat.den_intCast, Nat.cast_one, rheFrac_int_one]
  rw [round2, h1, Rat.divInt_eq_div]
  push_cast
  ring

theorem round2_natCast (n : ℕ) : round2 (n : ℚ) = n := by
  have := round2_intCast (n : ℤ)
  push_cast at this
  exact this

theorem round2_zero : round2 0 = 0 := by
  simpa using round2_natCast 0

theorem assignAux_length (D N i : ℕ) (l : List (List Char)) :
    (assignAux D N i l).length = l.length := by
  induction l generalizing i with
  | nil => rfl
  | cons d rest ih => simp [assignAux, ih]

theorem assignAux_get (D N : ℕ) (l : List (List Char)) (i j : ℕ)
    (hj : j < (assignAux D N i l).length) (hl : j < l.length) :
    (assignAux D N i l).get ⟨j, hj⟩ =
      { time_start := round2 (Rat.divInt ((i + j) * D) N)
        time_end :=
          if i + j = N - 1 then (D : ℚ) else round2 (Rat.divInt ((i + j + 1) * D) N)
        korean_description := l.get ⟨j, hl⟩ } := by
  induction l generalizing i j with
  | nil => simp at hl
  | cons d rest ih =>
    cases j with
    | zero => simp [assignAux]
    | succ j =>
      have hrest : j < rest.length := by simpa using hl
      have hrest' : j < (assignAux D N (i + 1) rest).length := by
        rw [assignAux_length]; exact hrest
      have := ih (i + 1) j hrest' hrest
      simp only [assignAux, List.get_cons_succ]
      rw [this]
      have h1 : i + 1 + j = i + (j + 1) := by omega
      rw [h1]
      push_cast
      ring_nf

/-- Splitting `parse_scenario = some tt` into its defining pieces. -/
theorem parse_scenario_some {s : String} {D L : ℕ} {tt : List Shot}
    (h : parse_scenario s D L = some tt) :
    L ≠ 0 ∧ computeScenes s.data D L ≠ [] ∧
      tt = assignTimes (computeScenes s.data D L) D := by
  by_cases hL : L = 0
  · simp [parse_scenario, hL] at h
  · by_cases he : (computeScenes s.data D L).isEmpty
    · simp [parse_scenario, hL, he] at h
    · refine ⟨hL, by simpa using he, ?_⟩
      simp [parse_scenario, hL, he] at h
      exact h.symm

theorem assignTimes_length (scenes : List (List Char)) (D : ℕ) :
    (assignTimes scenes D).length = scenes.length :=
  assignAux_length _ _ _ _

/-- The shot record at index `i` of `assignTimes`. -/
theorem assignTimes_get (scenes : List (List Char)) (D i : ℕ)
    (hi : i < (assignTimes scenes D).length) (hs : i < scenes.length) :
    (assignTimes scenes D).get ⟨i, hi⟩ =
      { time_start := round2 (Rat.divInt (i * D) scenes.length)
        time_end :=
          if i = scenes.length - 1 then (D : ℚ)
          else round2 (Rat.divInt ((i + 1) * D) scenes.length)
        korean_description := scenes.get ⟨i, hs⟩ } := by
  have hg := assignAux_get D scenes.length scenes 0 i hi hs
  simpa using hg

/-- C1: for every timetable emitted by `parse_scenario` from text `S` and
duration `D`, with `N` shots, `time_start[i] = round(i·D/N, 2)` and
`time_end[i] = round((i+1)·D/N, 2)` for every `i`, `time_end[N-1] = D`
exactly, `time_start[0] = 0`, and `time_end[i] = time_start[i+1]` for
`i < N-1`: the shots tile `[0, D]` with no gap and no overlap. -/
theorem parse_scenario_tiles (s : String) (D L : ℕ) (tt : List Shot)
    (h : parse_scenario s D L = some tt) :
    0 < tt.length ∧
    (∀ i (hi : i < tt.length),
      (tt.get ⟨i, hi⟩).time_start = round2 ((i * D : ℚ) / tt.length) ∧
      (tt.get ⟨i, hi⟩).time_end = round2 (((i + 1) * D : ℚ) / tt.length)) ∧
    (∀ hN : tt.length - 1 < tt.length,
      (tt.get ⟨tt.length - 1, hN⟩).time_end = D) ∧
    (∀ h0 : 0 < tt.length, (tt.get ⟨0, h0⟩).time_start = 0) ∧
    (∀ i (hi : i + 1 < tt.length),
      (tt.get ⟨i, Nat.lt_of_succ_lt hi⟩).time_end = (tt.get ⟨i + 1, hi⟩).time_start) := by
  obtain ⟨hL, hne, htt⟩ := parse_scenario_some h
  clear h
  generalize hSdef : computeScenes s.data D L = S at hne htt
  subst htt
  have hlen : (assignTimes S D).length = S.length := assignTimes_length S D
  have hpos : 0 < S.length := List.length_pos.mpr hne
  have hNq : (S.length : ℚ) ≠ 0 := Nat.cast_ne_zero.mpr (by omega)
  refine ⟨by omega, ?_, ?_, ?_, ?_⟩
  · intro i hi
    have hs : i < S.length := by omega
    rw [assignTimes_get S D i hi hs]
    constructor
    · show round2 (Rat.divInt (i * D) S.length) = round2 ((i * D : ℚ) / (assignTimes S D).length)
      rw [hlen]
      refine congrArg round2 ?_
      rw [Rat.divInt_eq_div]
      push_cast
      ring
    · show (if i = S.length - 1 then (D : ℚ)
          else round2 (Rat.divInt ((i + 1) * D) S.length)) =
          round2 (((i + 1) * D : ℚ) / (assignTimes S D).length)
      rw [hlen]
      by_cases hlast : i = S.length - 1
      · rw [if_pos hlast]
        have hi1 : i + 1 = S.length := by omega
        have harg : (((i + 1) * D : ℚ)) / (S.length : ℚ) = (D : ℚ) := by
          have : ((i : ℚ) + 1) = (S.length : ℚ) := by
            exact_mod_cast congrArg (Nat.cast (R := ℚ)) hi1
          rw [this]
          field_simp
        rw [harg, round2_natCast]
      · rw [if_neg hlast]
        refine congrArg round2 ?_
        rw [Rat.divInt_eq_div]
        push_cast
        ring
  · intro hN
    have hs : (assignTimes S D).length - 1 < S.length := by omega
    rw [assignTimes_get S D _ hN hs]
    have : (assignTimes S D).length - 1 = S.length - 1 := by omega
    simp [this]
  · intro h0
    have hs : 0 < S.length := hpos
    rw [assignTimes_get S D 0 h0 hs]
    show round2 (Rat.divInt (0 * D) S.length) = 0
    norm_num
    exact round2_zero
  · intro i hi
    have hs : i < S.length := by omega
    have hs1 : i + 1 < S.length := by omega
    rw [assignTimes_get S D i (Nat.lt_of_succ_lt hi) hs, assignTimes_get S D (i + 1) hi hs1]
    have hne1 : i ≠ S.length - 1 := by omega
    simp only [if_neg hne1]
    push_cast
    ring_nf

/-- Concrete 4-shot timetable used by the witness below. -/
def c1WitnessShots : List Shot :=
  [⟨0, Rat.divInt 25 4, ("aaaaa").data⟩,
   ⟨Rat.divInt 25 4, Rat.divInt 25 2, ("aaaaa").data⟩,
   ⟨Rat.divInt 25 2, Rat.divInt 75 4, ("aaaaa").data⟩,
   ⟨Rat.divInt 75 4, 25, ("aaaaa").data⟩]

/-- Witness for C1 at a concrete input (`D = 25`, a 20-character text that the
segmenter chunks into 4 scenes). -/
theorem parse_scenario_tiles_witness :
    parse_scenario "aaaaaaaaaaaaaaaaaaaa" 25 5 = some c1WitnessShots ∧
    (0 < c1WitnessShots.length ∧
     (∀ i (hi : i < c1WitnessShots.length),
       (c1WitnessShots.get ⟨i, hi⟩).time_start =
         round2 ((i * 25 : ℚ) / c1WitnessShots.length) ∧
       (c1WitnessShots.get ⟨i, hi⟩).time_end =
         round2 (((i + 1) * 25 : ℚ) / c1WitnessShots.length)) ∧
     (∀ hN : c1WitnessShots.length - 1 < c1WitnessShots.length,
       (c1WitnessShots.get ⟨c1WitnessShots.length - 1, hN⟩).time_end = 25) ∧
     (∀ h0 : 0 < c1WitnessShots.length,
       (c1WitnessShots.get ⟨0, h0⟩).time_start = 0) ∧
     (∀ i (hi : i + 1 < c1WitnessShots.length),
       (c1WitnessShots.get ⟨i, Nat.lt_of_succ_lt hi⟩).time_end =
         (c1WitnessShots.get ⟨i + 1, hi⟩).time_start)) :=
  ⟨by decide, parse_scenario_tiles "aaaaaaaaaaaaaaaaaaaa" 25 5 c1WitnessShots (by decide)⟩

/-- C9: shot segmentation is deterministic — `parse_scenario` is a pure
function of `(scenario, video_duration, target_scene_duration)`: two
invocations on equal arguments return identical timetables (the embedding
reads no ambient state and uses no randomness). -/
theorem parse_scenario_deterministic (s₁ s₂ : String) (D₁ D₂ L₁ L₂ : ℕ)
    (hs : s₁ = s₂) (hD : D₁ = D₂) (hL : L₁ = L₂) :
    parse_scenario s₁ D₁ L₁ = parse_scenario s₂ D₂ L₂ := by
  rw [hs, hD, hL]

/-- Witness for C9 at a concrete input. -/
theorem parse_scenario_deterministic_witness :
    parse_scenario "지지가 침대에 앉아 제품을 바름" 15 5 =
      parse_scenario "지지가 침대에 앉아 제품을 바름" 15 5 :=
  parse_scenario_deterministic _ _ 15 15 5 5 rfl rfl rfl

/-- C8 counterexample: a scenario text that splits into six period-separated
fragments gives a 6-shot timetable for `D = 25, L = 5`, not the claimed 5
shots — `parse_scenario` keeps every cleaned scene when their number lies
between 4 and `1.5·T`. -/
theorem parse_scenario_25_5_six_shots :
    targetSceneCount 25 5 = 5 ∧
    (parse_scenario
      "aaaaaaaaaaaaaaaa. bbbbbbbbbbbbbbbb. cccccccccccccccc. dddddddddddddddd. eeeeeeeeeeeeeeee. ffffffffffffffff."
      25 5).map List.length = some 6 ∧
    (parse_scenario
      "aaaaaaaaaaaaaaaa. bbbbbbbbbbbbbbbb. cccccccccccccccc. dddddddddddddddd. eeeeeeeeeeeeeeee. ffffffffffffffff."
      25 5).map List.length ≠ some 5 := by
  refine ⟨by decide, by decide, by decide⟩

/-- C8 (amended): for `D = 25, L = 5` the target shot count
`T = max(4, ⌊D/L⌋)` is 5, and every emitted timetable that does consist of 5
shots has shot `i` running exactly from `5·i` to `5·(i+1)` seconds; the count
itself depends on how the text segments and can differ from `T`. -/
theorem parse_scenario_25_5_five_scenes (s : String) (tt : List Shot)
    (h : parse_scenario s 25 5 = some tt) (h5 : tt.length = 5) :
    targetSceneCount 25 5 = 5 ∧
    ∀ i (hi : i < tt.length),
      (tt.get ⟨i, hi⟩).time_start = (5 * i : ℚ) ∧
      (tt.get ⟨i, hi⟩).time_end = (5 * (i + 1) : ℚ) := by
  refine ⟨by decide, ?_⟩
  obtain ⟨hL, hne, htt⟩ := parse_scenario_some h
  clear h
  generalize hSdef : computeScenes s.data 25 5 = S at hne htt
  subst htt
  have hlen : (assignTimes S 25).length = S.length := assignTimes_length S 25
  have hS5 : S.length = 5 := by omega
  intro i hi
  have hs : i < S.length := by omega
  rw [assignTimes_get S 25 i hi hs]
  have hstart : Rat.divInt (i * 25) S.length = ((5 * i : ℕ) : ℚ) := by
    rw [hS5, Rat.divInt_eq_div]
    push_cast
    field_simp
    ring
  have hend : Rat.divInt ((i + 1) * 25) S.length = ((5 * (i + 1) : ℕ) : ℚ) := by
    rw [hS5, Rat.divInt_eq_div]
    push_cast
    field_simp
    ring
  constructor
  · show round2 (Rat.divInt (i * 25) S.length) = (5 * i : ℚ)
    rw [hstart, round2_natCast]
    push_cast
    ring
  · show (if i = S.length - 1 then ((25 : ℕ) : ℚ)
        else round2 (Rat.divInt ((i + 1) * 25) S.length)) = (5 * (i + 1) : ℚ)
    by_cases hlast : i = S.length - 1
    · rw [if_pos hlast]
      have : i = 4 := by omega
      subst this
      norm_num
    · rw [if_neg hlast]
      rw [hend, round2_natCast]
      push_cast
      ring

/-- Concrete 5-shot timetable used by the witness below. -/
def c8WitnessShots : List Shot :=
  [⟨0, 5, ("aaaaaaaaaaaaaaaa").data⟩,
   ⟨5, 10, ("bbbbbbbbbbbbbbbb").data⟩,
   ⟨10, 15, ("cccccccccccccccc").data⟩,
   ⟨15, 20, ("dddddddddddddddd").data⟩,
   ⟨20, 25, ("eeeeeeeeeeeeeeee").data⟩]

/-- Witness for the amended C8 at a concrete 5-sentence input. -/
theorem parse_scenario_25_5_five_scenes_witness :
    parse_scenario
      "aaaaaaaaaaaaaaaa. bbbbbbbbbbbbbbbb. cccccccccccccccc. dddddddddddddddd. eeeeeeeeeeeeeeee."
      25 5 = some c8WitnessShots ∧
    (targetSceneCount 25 5 = 5 ∧
     ∀ i (hi : i < c8WitnessShots.length),
       (c8WitnessShots.get ⟨i, hi⟩).time_start = (5 * i : ℚ) ∧
       (c8WitnessShots.get ⟨i, hi⟩).time_end = (5 * (i + 1) : ℚ)) :=
  ⟨by decide,
   parse_scenario_25_5_five_scenes
     "aaaaaaaaaaaaaaaa. bbbbbbbbbbbbbbbb. cccccccccccccccc. dddddddddddddddd. eeeeeeeeeeeeeeee."
     c8WitnessShots (by decide) (by decide)⟩

/-! ## `src/scenario/exaone/dialogue_validator.py` — `validate_with_retry`

The generator (`generate_func`, an LLM call) and the validator's LLM scoring
are oracles: `gen i` is the outcome of the `i`-th generator call (1-based,
`none` for a `None` return or an exception, lines 225–233), and `vscore i`
is the score `validate_dialogue` would report on attempt `i`. -/

/-- The result dict produced by `generate_func`, abstracted to its
`"dialogue"` field plus an opaque identity `rid` distinguishing result
objects. -/
structure GenResult where
  dialogue : List Char
  rid : ℕ
deriving DecidableEq

/-- `prompt_generator.get_default_prompts()` (lines 250–267): the fallback
result dict; its `dialogue` field is the empty string.  Its identity `0` is
reserved (generator oracles in the proofs use positive `rid`s). -/
def get_default_prompts : GenResult := ⟨[], 0⟩

/-- One entry of `validation_history` (lines 257–263). -/
structure HistEntry where
  attempt : ℕ
  dialogue : List Char
  score : ℚ
  passed : Bool
deriving DecidableEq

/-- Line 238: `not dialogue or dialogue.strip() == ""`. -/
def emptyDialogue (d : List Char) : Bool := d.isEmpty || (stripChars d).isEmpty

/-- The effective validation score of a produced result: 10 for an empty
dialogue (line 240–247), otherwise the validator's score. -/
def attemptScoreVal (vscore : ℕ → ℚ) (r : GenResult) (i : ℕ) : ℚ :=
  if emptyDialogue r.dialogue then 10 else vscore i

/-- Attempt `i` passes: the generator produced a result and either the
dialogue is empty (bypass) or the validator's score reaches the threshold
(`validate_dialogue` line 184: `passed = score >= threshold`). -/
def attemptPassed (gen : ℕ → Option GenResult) (vscore : ℕ → ℚ) (th : ℚ) (i : ℕ) : Prop :=
  ∃ r, gen i = some r ∧ (emptyDialogue r.dialogue = true ∨ th ≤ vscore i)

/-- The `while attempts < max_retries` loop of `validate_with_retry`
(lines 221–288), unrolled on the remaining iteration count `fuel`; the state
is `(attempts, best_result, best_score, validation_history)`. -/
def vwrGo (gen : ℕ → Option GenResult) (vscore : ℕ → ℚ) (th : ℚ) :
    ℕ → ℕ → Option GenResult → ℚ → List HistEntry →
    GenResult × ℕ × List HistEntry
  | 0, attempts, best, _, hist => (best.getD get_default_prompts, attempts, hist)
  | fuel + 1, attempts, best, bestScore, hist =>
    match gen (attempts + 1) with
    | none => vwrGo gen vscore th fuel (attempts + 1) best bestScore hist
    | some result =>
      let score : ℚ :=
        if emptyDialogue result.dialogue then 10 else vscore (attempts + 1)
      let passed : Bool :=
        if emptyDialogue result.dialogue then true
        else decide (th ≤ vscore (attempts + 1))
      let hist2 := hist ++ [⟨attempts + 1, result.dialogue, score, passed⟩]
      let best2 := if bestScore < score then some result else best
      let bestScore2 := if bestScore < score then score else bestScore
      if passed then (result, attempts + 1, hist2)
      else vwrGo gen vscore th fuel (attempts + 1) best2 bestScore2 hist2

/-- `validate_with_retry(generate_func, …, max_retries, threshold)`
(lines 192–288): returns `(best_result, attempts, validation_history)`. -/
def validate_with_retry (gen : ℕ → Option GenResult) (vscore : ℕ → ℚ)
    (max_retries : ℕ) (threshold : ℚ) : GenResult × ℕ × List HistEntry :=
  vwrGo gen vscore threshold max_retries 0 none 0 []

/-- The boolean `passed` computed for a produced result (lines 238–255). -/
def passedBool (vscore : ℕ → ℚ) (th : ℚ) (r : GenResult) (i : ℕ) : Bool :=
  if emptyDialogue r.dialogue then true else decide (th ≤ vscore i)

theorem vwrGo_none {gen : ℕ → Option GenResult} {vscore : ℕ → ℚ} {th : ℚ}
    {fuel a : ℕ} {best : Option GenResult} {bs : ℚ} {hist : List HistEntry}
    (hg : gen (a + 1) = none) :
    vwrGo gen vscore th (fuel + 1) a best bs hist =
      vwrGo gen vscore th fuel (a + 1) best bs hist := by
  rw [vwrGo, hg]

theorem vwrGo_some_pass {gen : ℕ → Option GenResult} {vscore : ℕ → ℚ} {th : ℚ}
    {fuel a : ℕ} {best : Option GenResult} {bs : ℚ} {hist : List HistEntry}
    {result : GenResult} (hg : gen (a + 1) = some result)
    (hp : passedBool vscore th result (a + 1) = true) :
    vwrGo gen vscore th (fuel + 1) a best bs hist =
      (result, a + 1,
        hist ++ [⟨a + 1, result.dialogue, attemptScoreVal vscore result (a + 1), true⟩]) := by
  rw [vwrGo, hg]
  simp only [passedBool, attemptScoreVal] at hp ⊢
  rw [hp]
  simp

theorem vwrGo_some_fail {gen : ℕ → Option GenResult} {vscore : ℕ → ℚ} {th : ℚ}
    {fuel a : ℕ} {best : Option GenResult} {bs : ℚ} {hist : List HistEntry}
    {result : GenResult} (hg : gen (a + 1) = some result)
    (hp : passedBool vscore th result (a + 1) = false) :
    vwrGo gen vscore th (fuel + 1) a best bs hist =
      vwrGo gen vscore th fuel (a + 1)
        (if bs < attemptScoreVal vscore result (a + 1) then some result else best)
        (if bs < attemptScoreVal vscore result (a + 1)
          then attemptScoreVal vscore result (a + 1) else bs)
        (hist ++ [⟨a + 1, result.dialogue, attemptScoreVal vscore result (a + 1), false⟩]) := by
  rw [vwrGo, hg]
  simp only [passedBool, attemptScoreVal] at hp ⊢
  rw [hp]
  simp

theorem vwrGo_attempts_le (gen : ℕ → Option GenResult) (vscore : ℕ → ℚ) (th : ℚ) :
    ∀ fuel a best bs hist,
      (vwrGo gen vscore th fuel a best bs hist).2.1 ≤ a + fuel := by
  intro fuel
  induction fuel with
  | zero => intro a best bs hist; simp [vwrGo]
  | succ fuel ih =>
    intro a best bs hist
    cases hg : gen (a + 1) with
    | none =>
      rw [vwrGo_none hg]
      have := ih (a + 1) best bs hist
      omega
    | some result =>
      cases hp : passedBool vscore th result (a + 1) with
      | true =>
        rw [vwrGo_some_pass hg hp]
        show a + 1 ≤ a + (fuel + 1)
        omega
      | false =>
        rw [vwrGo_some_fail hg hp]
        have := ih (a + 1)
          (if bs < attemptScoreVal vscore result (a + 1) then some result else best)
          (if bs < attemptScoreVal vscore result (a + 1)
            then attemptScoreVal vscore result (a + 1) else bs)
          (hist ++ [⟨a + 1, result.dialogue, attemptScoreVal vscore result (a + 1), false⟩])
        omega

theorem passedBool_eq_true_iff (vscore : ℕ → ℚ) (th : ℚ) (r : GenResult) (i : ℕ) :
    passedBool vscore th r i = true ↔
      (emptyDialogue r.dialogue = true ∨ th ≤ vscore i) := by
  by_cases h : emptyDialogue r.dialogue = true <;> simp [passedBool, h]

theorem vwrGo_first_pass (gen : ℕ → Option GenResult) (vscore : ℕ → ℚ) (th : ℚ) :
    ∀ fuel a best bs hist i r,
      a < i → i ≤ a + fuel → gen i = some r →
      (emptyDialogue r.dialogue = true ∨ th ≤ vscore i) →
      (∀ j, a < j → j < i → ¬ attemptPassed gen vscore th j) →
      (vwrGo gen vscore th fuel a best bs hist).1 = r ∧
      (vwrGo gen vscore th fuel a best bs hist).2.1 = i ∧
      (⟨i, r.dialogue, attemptScoreVal vscore r i, true⟩ : HistEntry) ∈
        (vwrGo gen vscore th fuel a best bs hist).2.2 := by
  intro fuel
  induction fuel with
  | zero =>
    intro a best bs hist i r h1 h2 _ _ _
    exact absurd h2 (by omega)
  | succ fuel ih =>
    intro a best bs hist i r h1 h2 hgi hcond hmin
    by_cases he : i = a + 1
    · subst he
      have hp : passedBool vscore th r (a + 1) = true :=
        (passedBool_eq_true_iff vscore th r (a + 1)).mpr hcond
      rw [vwrGo_some_pass hgi hp]
      refine ⟨rfl, rfl, ?_⟩
      simp
    · have hlt : a + 1 < i := by omega
      cases hg : gen (a + 1) with
      | none =>
        rw [vwrGo_none hg]
        exact ih (a + 1) best bs hist i r hlt (by omega) hgi hcond
          (fun j hj1 hj2 => hmin j (by omega) hj2)
      | some result =>
        have hnp : ¬ attemptPassed gen vscore th (a + 1) := hmin (a + 1) (by omega) hlt
        have hcond2 : ¬ (emptyDialogue result.dialogue = true ∨ th ≤ vscore (a + 1)) :=
          fun hc => hnp ⟨result, hg, hc⟩
        have hp : passedBool vscore th result (a + 1) = false := by
          rw [Bool.eq_false_iff]
          intro hpb
          exact hcond2 ((passedBool_eq_true_iff vscore th result (a + 1)).mp hpb)
        rw [vwrGo_some_fail hg hp]
        exact ih (a + 1) _ _ _ i r hlt (by omega) hgi hcond
          (fun j hj1 hj2 => hmin j (by omega) hj2)

theorem passedBool_false_of_not {gen : ℕ → Option GenResult} {vscore : ℕ → ℚ} {th : ℚ}
    {i : ℕ} {result : GenResult} (hg : gen i = some result)
    (hnp : ¬ attemptPassed gen vscore th i) :
    passedBool vscore th result i = false := by
  rw [Bool.eq_false_iff]
  intro hpb
  exact hnp ⟨result, hg, (passedBool_eq_true_iff vscore th result i).mp hpb⟩

theorem vwrGo_exhaust_keep (gen : ℕ → Option GenResult) (vscore : ℕ → ℚ) (th : ℚ) :
    ∀ fuel a best bs hist,
      (∀ j, a < j → j ≤ a + fuel → ¬ attemptPassed gen vscore th j) →
      (∀ j r, a < j → j ≤ a + fuel → gen j = some r →
        attemptScoreVal vscore r j ≤ bs) →
      (vwrGo gen vscore th fuel a best bs hist).1 = best.getD get_default_prompts ∧
      (vwrGo gen vscore th fuel a best bs hist).2.1 = a + fuel := by
  intro fuel
  induction fuel with
  | zero => intro a best bs hist _ _; simp [vwrGo]
  | succ fuel ih =>
    intro a best bs hist hnp hsc
    cases hg : gen (a + 1) with
    | none =>
      rw [vwrGo_none hg]
      have h := ih (a + 1) best bs hist
        (fun j hj1 hj2 => hnp j (by omega) (by omega))
        (fun j r hj1 hj2 hr => hsc j r (by omega) (by omega) hr)
      exact ⟨h.1, by omega⟩
    | some result =>
      have hp : passedBool vscore th result (a + 1) = false :=
        passedBool_false_of_not hg (hnp (a + 1) (by omega) (by omega))
      rw [vwrGo_some_fail hg hp]
      have hle : attemptScoreVal vscore result (a + 1) ≤ bs :=
        hsc (a + 1) result (by omega) (by omega) hg
      rw [if_neg (not_lt.mpr hle), if_neg (not_lt.mpr hle)]
      have h := ih (a + 1) best bs
        (hist ++ [⟨a + 1, result.dialogue, attemptScoreVal vscore result (a + 1), false⟩])
        (fun j hj1 hj2 => hnp j (by omega) (by omega))
        (fun j r hj1 hj2 hr => hsc j r (by omega) (by omega) hr)
      exact ⟨h.1, by omega⟩

theorem vwrGo_exhaust_best (gen : ℕ → Option GenResult) (vscore : ℕ → ℚ) (th : ℚ) :
    ∀ fuel a best bs hist m rm,
      (∀ j, a < j → j ≤ a + fuel → ¬ attemptPassed gen vscore th j) →
      a < m → m ≤ a + fuel → gen m = some rm →
      bs < attemptScoreVal vscore rm m →
      (∀ j r, a < j → j < m → gen j = some r →
        attemptScoreVal vscore r j < attemptScoreVal vscore rm m) →
      (∀ j r, a < j → j ≤ a + fuel → gen j = some r →
        attemptScoreVal vscore r j ≤ attemptScoreVal vscore rm m) →
      (vwrGo gen vscore th fuel a best bs hist).1 = rm ∧
      (vwrGo gen vscore th fuel a best bs hist).2.1 = a + fuel := by
  intro fuel
  induction fuel with
  | zero =>
    intro a best bs hist m rm _ h1 h2 _ _ _ _
    exact absurd h2 (by omega)
  | succ fuel ih =>
    intro a best bs hist m rm hnp h1 h2 hgm hbs hearly hall
    cases hg : gen (a + 1) with
    | none =>
      rw [vwrGo_none hg]
      have hne : m ≠ a + 1 := fun he => by rw [he, hg] at hgm; cases hgm
      have h := ih (a + 1) best bs hist m rm
        (fun j hj1 hj2 => hnp j (by omega) (by omega))
        (by omega) (by omega) hgm hbs
        (fun j r hj1 hj2 hr => hearly j r (by omega) hj2 hr)
        (fun j r hj1 hj2 hr => hall j r (by omega) (by omega) hr)
      exact ⟨h.1, by omega⟩
    | some result =>
      have hp : passedBool vscore th result (a + 1) = false :=
        passedBool_false_of_not hg (hnp (a + 1) (by omega) (by omega))
      rw [vwrGo_some_fail hg hp]
      by_cases he : m = a + 1
      · subst he
        have hres : result = rm := by rw [hg] at hgm; cases hgm; rfl
        subst hres
        rw [if_pos hbs, if_pos hbs]
        have h := vwrGo_exhaust_keep gen vscore th fuel (a + 1) (some result)
          (attemptScoreVal vscore result (a + 1))
          (hist ++ [⟨a + 1, result.dialogue, attemptScoreVal vscore result (a + 1), false⟩])
          (fun j hj1 hj2 => hnp j (by omega) (by omega))
          (fun j r hj1 hj2 hr => hall j r (by omega) (by omega) hr)
        refine ⟨?_, by omega⟩
        rw [h.1]
        rfl
      · have hlt : a + 1 < m := by omega
        have hs1 : attemptScoreVal vscore result (a + 1) < attemptScoreVal vscore rm m :=
          hearly (a + 1) result (by omega) hlt hg
        have hbs2 : (if bs < attemptScoreVal vscore result (a + 1)
            then attemptScoreVal vscore result (a + 1) else bs) <
            attemptScoreVal vscore rm m := by
          split <;> [exact hs1; exact hbs]
        have h := ih (a + 1)
          (if bs < attemptScoreVal vscore result (a + 1) then some result else best)
          (if bs < attemptScoreVal vscore result (a + 1)
            then attemptScoreVal vscore result (a + 1) else bs)
          (hist ++ [⟨a + 1, result.dialogue, attemptScoreVal vscore result (a + 1), false⟩])
          m rm
          (fun j hj1 hj2 => hnp j (by omega) (by omega))
          (by omega) (by omega) hgm hbs2
          (fun j r hj1 hj2 hr => hearly j r (by omega) hj2 hr)
          (fun j r hj1 hj2 hr => hall j r (by omega) (by omega) hr)
        exact ⟨h.1, by omega⟩

theorem vwrGo_exhaust_attempts (gen : ℕ → Option GenResult) (vscore : ℕ → ℚ) (th : ℚ) :
    ∀ fuel a best bs hist,
      (∀ j, a < j → j ≤ a + fuel → ¬ attemptPassed gen vscore th j) →
      (vwrGo gen vscore th fuel a best bs hist).2.1 = a + fuel := by
  intro fuel
  induction fuel with
  | zero => intro a best bs hist _; simp [vwrGo]
  | succ fuel ih =>
    intro a best bs hist hnp
    cases hg : gen (a + 1) with
    | none =>
      rw [vwrGo_none hg]
      have := ih (a + 1) best bs hist (fun j hj1 hj2 => hnp j (by omega) (by omega))
      omega
    | some result =>
      have hp : passedBool vscore th result (a + 1) = false :=
        passedBool_false_of_not hg (hnp (a + 1) (by omega) (by omega))
      rw [vwrGo_some_fail hg hp]
      have := ih (a + 1)
        (if bs < attemptScoreVal vscore result (a + 1) then some result else best)
        (if bs < attemptScoreVal vscore result (a + 1)
          then attemptScoreVal vscore result (a + 1) else bs)
        (hist ++ [⟨a + 1, result.dialogue, attemptScoreVal vscore result (a + 1), false⟩])
        (fun j hj1 hj2 => hnp j (by omega) (by omega))
      omega

/-- C2 (amended): with `max_retries = 3` and `threshold = 7`, the loop calls
the generator at most 3 times; it returns the first attempt whose effective
score passes (an empty dialogue bypasses the validator and passes with score
10 on that very attempt, recorded in the history with `pass = true`); when no
attempt passes, the loop runs all 3 attempts and returns the earliest
highest-scoring attempt provided its score exceeds the initial best score 0 —
if every produced attempt scores ≤ 0 (or generation always fails), the
default prompt result is returned instead of an attempt. -/
theorem validate_with_retry_spec (gen : ℕ → Option GenResult) (vscore : ℕ → ℚ) :
    ((validate_with_retry gen vscore 3 7).2.1 ≤ 3) ∧
    (∀ i r, 0 < i → i ≤ 3 → gen i = some r →
      (emptyDialogue r.dialogue = true ∨ 7 ≤ vscore i) →
      (∀ j, 0 < j → j < i → ¬ attemptPassed gen vscore 7 j) →
      (validate_with_retry gen vscore 3 7).1 = r ∧
      (validate_with_retry gen vscore 3 7).2.1 = i ∧
      (⟨i, r.dialogue, attemptScoreVal vscore r i, true⟩ : HistEntry) ∈
        (validate_with_retry gen vscore 3 7).2.2) ∧
    (∀ i r, 0 < i → i ≤ 3 → gen i = some r → emptyDialogue r.dialogue = true →
      (∀ j, 0 < j → j < i → ¬ attemptPassed gen vscore 7 j) →
      (validate_with_retry gen vscore 3 7).1 = r ∧
      (validate_with_retry gen vscore 3 7).2.1 = i ∧
      (⟨i, r.dialogue, 10, true⟩ : HistEntry) ∈
        (validate_with_retry gen vscore 3 7).2.2) ∧
    ((∀ j, 0 < j → j ≤ 3 → ¬ attemptPassed gen vscore 7 j) →
      (validate_with_retry gen vscore 3 7).2.1 = 3 ∧
      (∀ m rm, 0 < m → m ≤ 3 → gen m = some rm →
        0 < attemptScoreVal vscore rm m →
        (∀ j r, 0 < j → j < m → gen j = some r →
          attemptScoreVal vscore r j < attemptScoreVal vscore rm m) →
        (∀ j r, 0 < j → j ≤ 3 → gen j = some r →
          attemptScoreVal vscore r j ≤ attemptScoreVal vscore rm m) →
        (validate_with_retry gen vscore 3 7).1 = rm) ∧
      ((∀ j r, 0 < j → j ≤ 3 → gen j = some r → attemptScoreVal vscore r j ≤ 0) →
        (validate_with_retry gen vscore 3 7).1 = get_default_prompts)) := by
  refine ⟨vwrGo_attempts_le gen vscore 7 3 0 none 0 [], ?_, ?_, ?_⟩
  · intro i r h1 h2 hgi hcond hmin
    exact vwrGo_first_pass gen vscore 7 3 0 none 0 [] i r h1 (by omega) hgi hcond
      (fun j hj1 hj2 => hmin j hj1 hj2)
  · intro i r h1 h2 hgi hemp hmin
    have h := vwrGo_first_pass gen vscore 7 3 0 none 0 [] i r h1 (by omega) hgi
      (Or.inl hemp) (fun j hj1 hj2 => hmin j hj1 hj2)
    refine ⟨h.1, h.2.1, ?_⟩
    have hsv : attemptScoreVal vscore r i = 10 := by
      simp [attemptScoreVal, hemp]
    rw [← hsv]
    exact h.2.2
  · intro hnp
    refine ⟨vwrGo_exhaust_attempts gen vscore 7 3 0 none 0 []
      (fun j hj1 hj2 => hnp j hj1 hj2), ?_, ?_⟩
    · intro m rm h1 h2 hgm hpos hearly hall
      exact (vwrGo_exhaust_best gen vscore 7 3 0 none 0 [] m rm
        (fun j hj1 hj2 => hnp j hj1 hj2) h1 (by omega) hgm hpos
        (fun j r hj1 hj2 hr => hearly j r hj1 hj2 hr)
        (fun j r hj1 hj2 hr => hall j r hj1 (by omega) hr)).1
    · intro hle
      exact (vwrGo_exhaust_keep gen vscore 7 3 0 none 0 []
        (fun j hj1 hj2 => hnp j hj1 hj2)
        (fun j r hj1 hj2 hr => hle j r hj1 (by omega) hr)).1

/-- Generator oracle for the C2 counterexample: every attempt produces a
result with the non-empty dialogue `"x"` and identity = attempt number. -/
def c2gen : ℕ → Option GenResult := fun i => some ⟨("x").data, i⟩

/-- Validator oracle for the C2 counterexample: every attempt scores 0
(the validator's "poor" band). -/
def c2score : ℕ → ℚ := fun _ => 0

/-- C2 counterexample: when all three attempts produce a (non-empty) dialogue
scored 0, every attempt fails, yet `validate_with_retry` returns the default
prompt result rather than "the attempt with the highest score seen": the best
tracker only records scores strictly above its initial value 0, so all three
attempts (history below) are discarded and none of them is returned. -/
theorem validate_with_retry_zero_scores :
    (validate_with_retry c2gen c2score 3 7).1 = get_default_prompts ∧
    (validate_with_retry c2gen c2score 3 7).2.1 = 3 ∧
    (validate_with_retry c2gen c2score 3 7).2.2 =
      [⟨1, ("x").data, 0, false⟩, ⟨2, ("x").data, 0, false⟩,
       ⟨3, ("x").data, 0, false⟩] ∧
    c2gen 1 = some ⟨("x").data, 1⟩ ∧
    c2gen 2 = some ⟨("x").data, 2⟩ ∧
    c2gen 3 = some ⟨("x").data, 3⟩ ∧
    get_default_prompts ≠ (⟨("x").data, 1⟩ : GenResult) ∧
    get_default_prompts ≠ (⟨("x").data, 2⟩ : GenResult) ∧
    get_default_prompts ≠ (⟨("x").data, 3⟩ : GenResult) := by
  refine ⟨by decide, by decide, by decide, rfl, rfl, rfl, by decide, by decide, by decide⟩

/-- Generator oracle for the C2 witness: attempt 1 produces dialogue `"ok"`. -/
def c2wgen : ℕ → Option GenResult := fun i => if i = 1 then some ⟨("ok").data, 5⟩ else none

/-- Validator oracle for the C2 witness: every attempt scores 8. -/
def c2wscore : ℕ → ℚ := fun _ => 8

/-- Witness for C2: with a first attempt scoring 8 ≥ 7, the loop returns that
attempt after exactly one generator call. -/
theorem validate_with_retry_spec_witness :
    (validate_with_retry c2wgen c2wscore 3 7).1 = ⟨("ok").data, 5⟩ ∧
    (validate_with_retry c2wgen c2wscore 3 7).2.1 = 1 ∧
    (⟨1, ("ok").data, attemptScoreVal c2wscore ⟨("ok").data, 5⟩ 1, true⟩ : HistEntry) ∈
      (validate_with_retry c2wgen c2wscore 3 7).2.2 :=
  (validate_with_retry_spec c2wgen c2wscore).2.1 1 ⟨("ok").data, 5⟩ (by decide) (by decide)
    (by decide) (Or.inr (by decide)) (fun j hj1 hj2 => absurd hj2 (by omega))

/-! ## Validator verdict post-processing

`validate_dialogue` (`dialogue_validator.py` lines 155–189) and
`validate_scenario` (`scenario_validator.py` lines 141–179) post-process the
LLM text identically: strip a `<think>…</think>` prior part, extract the
regex match `\{.*\}` (DOTALL: from the first `{` to the last `}`), parse it
as JSON, and read the `"score"` field with default 7.0.  The JSON parser
itself (`json.loads`) is an oracle `jsonLoads`: `none` models
`json.JSONDecodeError`, `some none` a parsed object without a `"score"` key,
`some (some q)` a parsed numeric score `q`. -/

/-- The `<think>` tag (dialogue validator line 156, scenario line 142). -/
def thinkOpenTok : List Char := ("<think>").data

/-- The `</think>` split token. -/
def thinkCloseTok : List Char := ("</think>").data

/-- Lines 156–159: keep the part after `</think>` (stripped) when a
`<think>` tag is present and the split produced at least two parts. -/
def stripThink (t : List Char) : List Char :=
  if containsSub thinkOpenTok t then
    let parts := splitOnSub thinkCloseTok t
    if 1 < parts.length then stripChars (parts.getD 1 []) else t
  else t

/-- `re.search(r'\{.*\}', text, re.DOTALL)`: the leftmost-greedy match runs
from the first `{` to the last `}`, provided that `}` comes later. -/
def extractBraces (s : List Char) : Option (List Char) :=
  match s.indexOf? '{', (s.reverse.indexOf? '}').map (fun k => s.length - 1 - k) with
  | some i, some j => if i < j then some (sliceList i (j + 1) s) else none
  | _, _ => none

/-- `validate_dialogue` after the LLM call (lines 155–189): returns
`(passed, score)` where a missing JSON match or a decode error defaults the
score to 7.0 and `passed = score >= threshold`. -/
def validate_dialogue_model (jsonLoads : List Char → Option (Option ℚ))
    (generated : List Char) (threshold : ℚ) : Bool × ℚ :=
  let text := stripThink generated
  let score : ℚ :=
    match extractBraces text with
    | none => 7
    | some frag =>
      match jsonLoads frag with
      | none => 7
      | some s => s.getD 7
  (decide (threshold ≤ score), score)

/-- `validate_scenario` after the LLM call (`scenario_validator.py` lines
141–179): the same post-processing as the dialogue validator. -/
def validate_scenario_model (jsonLoads : List Char → Option (Option ℚ))
    (generated : List Char) (threshold : ℚ) : Bool × ℚ :=
  let text := stripThink generated
  let score : ℚ :=
    match extractBraces text with
    | none => 7
    | some frag =>
      match jsonLoads frag with
      | none => 7
      | some s => s.getD 7
  (decide (threshold ≤ score), score)

/-- C5: at the threshold 7.0 used by every call site, a validator invocation
whose LLM output contains no parseable JSON object — no `{…}` match at all,
or a fragment `json.loads` rejects — returns the neutral score 7.0 with
`pass = true`, for both the dialogue validator and the scenario validator, so
a parse failure never blocks the generation loop. -/
theorem validator_parse_failure_neutral (jsonLoads : List Char → Option (Option ℚ))
    (generated : List Char)
    (hfail : extractBraces (stripThink generated) = none ∨
      ∃ frag, extractBraces (stripThink generated) = some frag ∧ jsonLoads frag = none) :
    validate_dialogue_model jsonLoads generated 7 = (true, 7) ∧
    validate_scenario_model jsonLoads generated 7 = (true, 7) := by
  rcases hfail with hnone | ⟨frag, hfrag, hload⟩
  · constructor <;> simp [validate_dialogue_model, validate_scenario_model, hnone]
  · constructor <;> simp [validate_dialogue_model, validate_scenario_model, hfrag, hload]

/-- Witness for C5 at a concrete LLM output with no JSON object and a
rejecting parser. -/
theorem validator_parse_failure_neutral_witness :
    validate_dialogue_model (fun _ => none) ("no json here").data 7 = (true, 7) ∧
    validate_scenario_model (fun _ => none) ("no json here").data 7 = (true, 7) :=
  validator_parse_failure_neutral (fun _ => none) ("no json here").data
    (Or.inl (by decide))

/-! ## `src/api/api.py` — session paths (lines 93–106, 737–776, 800–819)

Paths are `List Char` strings joined with POSIX `os.path.join`; the file
system is a list of *resolved* paths (segment lists), so that `..` components
in a joined path reach their actual target, as the operating system would
resolve them.  No endpoint inspects `session_id` or `filename` for `/` or
`..` — the strings are joined verbatim. -/

/-- `SHARED_DIR = "shared"` (line 41). -/
def SHARED_DIR : List Char := ("shared").data

/-- POSIX `os.path.join(a, b)` for two components. -/
def pyJoin (a b : List Char) : List Char :=
  if b.head? = some '/' then b
  else if a.isEmpty then b
  else if a.getLast? = some '/' then a ++ b
  else a ++ [ '/' ] ++ b

/-- Path components: split on `/`, dropping empty components and `.`. -/
def pathSegs (p : List Char) : List (List Char) :=
  (splitAnyChar ['/'] p).filter (fun s => !s.isEmpty && decide (s ≠ (".").data))

/-- Resolve `..` components the way the file system does. -/
def resolveSegs (segs : List (List Char)) : List (List Char) :=
  segs.foldl (fun acc seg => if seg = ("..").data then acc.dropLast else acc ++ [seg]) []

/-- A path, resolved to the segment list it actually denotes. -/
def resolvePath (p : List Char) : List (List Char) := resolveSegs (pathSegs p)

/-- `os.path.exists` over the resolved file set. -/
def pathExists (fs : List (List (List Char))) (p : List Char) : Bool :=
  decide (resolvePath p ∈ fs)

/-- `get_session_dir(session_id)` (lines 93–97; the `os.makedirs` side
effect is not tracked). -/
def get_session_dir (session_id : List Char) : List Char :=
  pyJoin SHARED_DIR session_id

/-- `find_file_in_session(session_id, filename)` (lines 100–106): `none`
models the `FileNotFoundError`. -/
def find_file_in_session (fs : List (List (List Char)))
    (session_id filename : List Char) : Option (List Char) :=
  let filepath := pyJoin (get_session_dir session_id) filename
  if pathExists fs filepath then some filepath else none

/-- Result of `GET /session/{session_id}/file/{filename}`. -/
inductive SessionFileResult
  | notFound
  | served (path : List (List Char))
deriving DecidableEq

/-- `get_session_file` (lines 800–819): 404 when the joined path does not
exist, else a `FileResponse` reading that path. -/
def get_session_file (fs : List (List (List Char)))
    (session_id filename : List Char) : SessionFileResult :=
  let filepath := pyJoin (pyJoin SHARED_DIR session_id) filename
  if pathExists fs filepath then .served (resolvePath filepath) else .notFound

/-- Add a resolved path to the file set. -/
def insertPath (fs : List (List (List Char))) (p : List (List Char)) :
    List (List (List Char)) :=
  if p ∈ fs then fs else fs ++ [p]

/-- `session_upload` (lines 737–776): writes `file` to
`os.path.join(get_session_dir(session_id), save_filename)` unconditionally
and reports success; returns the updated file set and the written (resolved)
path. -/
def session_upload (fs : List (List (List Char)))
    (session_id save_filename : List Char) :
    List (List (List Char)) × List (List Char) :=
  let filepath := pyJoin (get_session_dir session_id) save_filename
  (insertPath fs (resolvePath filepath), resolvePath filepath)

/-- C3 counterexample: none of the session operations rejects a name with a
`..` path component.  With session id `s1` and client-supplied name
`../s2/secret.mp4`, `get_session_file` serves the file `shared/s2/secret.mp4`
belonging to session `s2` — a path that is not under `shared/s1` — and
`session_upload` writes `shared/s2/evil.mp4`, also outside `shared/s1`. -/
theorem session_path_traversal_escapes :
    get_session_file [[("shared").data, ("s2").data, ("secret.mp4").data]]
      ("s1").data ("../s2/secret.mp4").data =
      .served [("shared").data, ("s2").data, ("secret.mp4").data] ∧
    (resolvePath (get_session_dir ("s1").data)).isPrefixOf
      [("shared").data, ("s2").data, ("secret.mp4").data] = false ∧
    (session_upload [] ("s1").data ("../s2/evil.mp4").data).2 =
      [("shared").data, ("s2").data, ("evil.mp4").data] ∧
    (resolvePath (get_session_dir ("s1").data)).isPrefixOf
      [("shared").data, ("s2").data, ("evil.mp4").data] = false ∧
    find_file_in_session [[("shared").data, ("s2").data, ("secret.mp4").data]]
      ("s1").data ("../s2/secret.mp4").data =
      some (("shared/s1/../s2/secret.mp4").data) := by
  refine ⟨by decide, by decide, by decide, by decide, by decide⟩

/-- C3 (amended): the session operations perform no validation of the
client-supplied name — names containing `/` or `..` are accepted — and each
operation accesses exactly the resolution of
`os.path.join(SHARED_DIR, session_id, name)`: the upload writes it, the file
fetch serves it whenever it exists (404 only when it does not), and the merge
input lookup returns the joined path whenever it exists.  For a name with
`..` components this path lies outside the session's directory (see the
counterexample above). -/
theorem session_name_not_sanitized (fs : List (List (List Char)))
    (session_id name : List Char) :
    ((session_upload fs session_id name).2 =
      resolvePath (pyJoin (pyJoin SHARED_DIR session_id) name) ∧
     (session_upload fs session_id name).1 =
      insertPath fs (resolvePath (pyJoin (pyJoin SHARED_DIR session_id) name))) ∧
    (∀ r, get_session_file fs session_id name = .served r →
      r = resolvePath (pyJoin (pyJoin SHARED_DIR session_id) name)) ∧
    (get_session_file fs session_id name = .notFound ↔
      resolvePath (pyJoin (pyJoin SHARED_DIR session_id) name) ∉ fs) ∧
    (∀ p, find_file_in_session fs session_id name = some p →
      p = pyJoin (pyJoin SHARED_DIR session_id) name) ∧
    (find_file_in_session fs session_id name = none ↔
      resolvePath (pyJoin (pyJoin SHARED_DIR session_id) name) ∉ fs) := by
  refine ⟨⟨rfl, rfl⟩, ?_, ?_, ?_, ?_⟩
  · intro r hr
    by_cases h : pathExists fs (pyJoin (pyJoin SHARED_DIR session_id) name) = true
    · simp [get_session_file, h] at hr
      exact hr.symm
    · simp [get_session_file, h] at hr
  · by_cases h : pathExists fs (pyJoin (pyJoin SHARED_DIR session_id) name) = true
    · simp [get_session_file, h]
      simpa [pathExists] using h
    · simp [get_session_file, h]
      simpa [pathExists] using h
  · intro p hp
    by_cases h : pathExists fs (pyJoin (get_session_dir session_id) name) = true
    · simp [find_file_in_session, h] at hp
      exact hp.symm
    · simp [find_file_in_session, h] at hp
  · by_cases h : pathExists fs (pyJoin (get_session_dir session_id) name) = true
    · simp [find_file_in_session, h]
      simpa [pathExists, get_session_dir] using h
    · simp [find_file_in_session, h]
      simpa [pathExists, get_session_dir] using h

/-- Witness for the amended C3 at concrete inputs. -/
theorem session_name_not_sanitized_witness :
    (session_upload [] ("s1").data ("../s2/evil.mp4").data).2 =
      resolvePath (pyJoin (pyJoin SHARED_DIR ("s1").data) ("../s2/evil.mp4").data) ∧
    (get_session_file [] ("s1").data ("../s2/secret.mp4").data = .notFound ↔
      resolvePath (pyJoin (pyJoin SHARED_DIR ("s1").data) ("../s2/secret.mp4").data) ∉
        ([] : List (List (List Char)))) :=
  ⟨(session_name_not_sanitized [] ("s1").data ("../s2/evil.mp4").data).1.1,
   (session_name_not_sanitized [] ("s1").data ("../s2/secret.mp4").data).2.2.1⟩

/-! ## `src/api/api.py` — retention sweeps (lines 47–48, 54–77, 109–124, 199–213)

Timestamps are integer Unix seconds.  The source compares
`(now - mtime) / 3600 > max_age_hours` with float division; for integer
times and hours this is exactly `now - mtime > 3600 * max_age_hours`, the
form used here.  Per-entry deletion failures (the `try/except` around
`unlink`/`rmtree`) are modelled as always succeeding. -/

/-- A directory entry with its mtime (Unix seconds). -/
structure FileEnt where
  name : List Char
  mtime : ℤ
deriving DecidableEq

/-- `FILE_MAX_AGE_HOURS = 2` (line 47). -/
def FILE_MAX_AGE_HOURS : ℤ := 2

/-- `SESSION_MAX_AGE_HOURS = 24` (line 48). -/
def SESSION_MAX_AGE_HOURS : ℤ := 24

/-- The sleep between periodic passes: `await asyncio.sleep(1800)`
(line 74), i.e. 30 minutes. -/
def PERIODIC_SLEEP_SECONDS : ℕ := 1800

/-- `cleanup_old_files(directory, max_age_hours)` (lines 54–68): delete every
file whose age exceeds `max_age_hours` hours. -/
def cleanup_old_files (now max_age_hours : ℤ) (files : List FileEnt) : List FileEnt :=
  files.filter (fun f => !decide (3600 * max_age_hours < now - f.mtime))

/-- `cleanup_old_sessions(max_age_hours=SESSION_MAX_AGE_HOURS)`
(lines 109–124): delete every session directory whose age exceeds the TTL. -/
def cleanup_old_sessions (now max_age_hours : ℤ) (sessions : List FileEnt) :
    List FileEnt :=
  sessions.filter (fun s => !decide (3600 * max_age_hours < now - s.mtime))

/-- The gateway's three swept directories. -/
structure MergeApiState where
  uploads : List FileEnt
  outputs : List FileEnt
  sessions : List FileEnt
deriving DecidableEq

/-- One iteration of `periodic_cleanup` after its sleep (lines 71–77): it
cleans `OUTPUT_DIR` and `UPLOAD_DIR` only. -/
def periodic_cleanup_pass (now : ℤ) (st : MergeApiState) : MergeApiState :=
  { st with
    outputs := cleanup_old_files now FILE_MAX_AGE_HOURS st.outputs
    uploads := cleanup_old_files now FILE_MAX_AGE_HOURS st.uploads }

/-- The sweep run once by `startup_event` (lines 199–213): files in both
directories, then `cleanup_old_sessions()`. -/
def startup_cleanup (now : ℤ) (st : MergeApiState) : MergeApiState :=
  { outputs := cleanup_old_files now FILE_MAX_AGE_HOURS st.outputs
    uploads := cleanup_old_files now FILE_MAX_AGE_HOURS st.uploads
    sessions := cleanup_old_sessions now SESSION_MAX_AGE_HOURS st.sessions }

/-- C4 counterexample: a session directory 25 hours old (mtime 0, now =
90000 s) survives a periodic pass unchanged — the every-30-minutes task never
touches `SHARED_DIR` — while the startup sweep does delete it.  So a session
whose age exceeds the TTL is *not* removed by the next periodic pass. -/
theorem periodic_pass_keeps_stale_session :
    (periodic_cleanup_pass 90000
      ⟨[], [], [⟨("old_session").data, 0⟩]⟩).sessions = [⟨("old_session").data, 0⟩] ∧
    3600 * SESSION_MAX_AGE_HOURS < 90000 - 0 ∧
    (startup_cleanup 90000 ⟨[], [], [⟨("old_session").data, 0⟩]⟩).sessions = [] := by
  refine ⟨by decide, by decide, by decide⟩

/-- C4 (amended): the 30-minute periodic task deletes exactly the files older
than 2 hours in the outputs and uploads directories and never touches session
directories; sessions older than the 24-hour TTL are deleted only by the
startup sweep, which retains every session at or below the TTL. -/
theorem periodic_cleanup_scope (now : ℤ) (st : MergeApiState) :
    (periodic_cleanup_pass now st).sessions = st.sessions ∧
    (∀ f, f ∈ (periodic_cleanup_pass now st).outputs ↔
      f ∈ st.outputs ∧ ¬ (3600 * FILE_MAX_AGE_HOURS < now - f.mtime)) ∧
    (∀ f, f ∈ (periodic_cleanup_pass now st).uploads ↔
      f ∈ st.uploads ∧ ¬ (3600 * FILE_MAX_AGE_HOURS < now - f.mtime)) ∧
    (∀ s, s ∈ (startup_cleanup now st).sessions ↔
      s ∈ st.sessions ∧ ¬ (3600 * SESSION_MAX_AGE_HOURS < now - s.mtime)) ∧
    PERIODIC_SLEEP_SECONDS = 1800 := by
  refine ⟨rfl, ?_, ?_, ?_, rfl⟩ <;>
    intro f <;>
    simp [periodic_cleanup_pass, startup_cleanup, cleanup_old_files,
      cleanup_old_sessions, List.mem_filter]

/-! ## Merge endpoints (`src/api/api.py` 338–420, 932–1011;
`src/video/i2v/wan2/api.py` 735–855)

The file system here is a flat list of path strings (these endpoints join
names verbatim and never resolve `..`).  The two `ffmpeg` exit codes of a
request are oracles `exitCopy`, `exitEnc`; a failing `ffmpeg` run is modelled
as writing nothing.  Output-name defaulting (`request.output_filename or
f"merged_{…}.mp4"`) is summarised by passing the chosen base name in, with
the `.mp4`-suffix rule applied as in the source. -/

/-- `UPLOAD_DIR = "uploads"` (api.py line 39). -/
def UPLOAD_DIR : List Char := ("uploads").data

/-- `OUTPUT_DIR = "outputs"` (api.py line 40; wan2 uses the same name). -/
def OUTPUT_DIR : List Char := ("outputs").data

/-- `if not output_filename.endswith(".mp4"): output_filename += ".mp4"`. -/
def ensureMp4 (name : List Char) : List Char :=
  if (".mp4").data.isSuffixOf name then name else name ++ (".mp4").data

/-- `os.path.exists` over the flat path list. -/
def fileExists (fs : List (List Char)) (p : List Char) : Bool := decide (p ∈ fs)

/-- Record a written file. -/
def insertFile (fs : List (List Char)) (p : List Char) : List (List Char) :=
  if p ∈ fs then fs else fs ++ [p]

/-- `if os.path.exists(p): os.remove(p)` (the `finally` blocks). -/
def removeFile (fs : List (List Char)) (p : List Char) : List (List Char) :=
  fs.filter (fun q => decide (q ≠ p))

/-- The re-encode settings of every concat fallback: `-c:v libx264 -preset
fast -crf 23 -c:a aac -b:a 128k`. -/
structure EncodeParams where
  video_codec : List Char
  preset : List Char
  crf : ℕ
  audio_codec : List Char
  audio_bitrate : List Char
deriving DecidableEq

/-- The literal fallback parameters used by all four concat sites. -/
def reencodeParams : EncodeParams :=
  ⟨("libx264").data, ("fast").data, 23, ("aac").data, ("128k").data⟩

/-- One `ffmpeg` concat invocation: stream-copy (`-c copy`) or re-encode. -/
inductive ConcatCmd
  | streamCopy
  | reencode (p : EncodeParams)
deriving DecidableEq

/-- The shared concat block (api.py 376–407, 968–997; wan2 642–675,
801–830): run stream-copy; on a nonzero exit rerun with the re-encode
parameters; fail only if that also exits nonzero.  Returns
`(succeeded, invocations in order)`. -/
def runConcat (exitCopy exitEnc : ℤ) : Bool × List ConcatCmd :=
  if exitCopy = 0 then (true, [.streamCopy])
  else if exitEnc = 0 then (true, [.streamCopy, .reencode reencodeParams])
  else (false, [.streamCopy, .reencode reencodeParams])

/-- Outcome of a merge endpoint. -/
inductive MergeOutcome
  | httpError (code : ℕ)
  | ok (output_file : List Char)
  | exception
deriving DecidableEq

/-- api.py 350–358: each input is looked up in `uploads/`, then `outputs/`;
`none` models the 404 on the first missing file. -/
def resolveInputs (fs : List (List Char)) : List (List Char) → Option (List (List Char))
  | [] => some []
  | n :: rest =>
    let p1 := pyJoin UPLOAD_DIR n
    let p2 := pyJoin OUTPUT_DIR n
    if fileExists fs p1 then (resolveInputs fs rest).map (p1 :: ·)
    else if fileExists fs p2 then (resolveInputs fs rest).map (p2 :: ·)
    else none

/-- `POST /merge/videos` (api.py 338–420).  Returns the outcome, the final
file system, and the `ffmpeg` invocations made. -/
def merge_videos (video_files : List (List Char)) (output_filename uid : List Char)
    (exitCopy exitEnc : ℤ) (fs : List (List Char)) :
    MergeOutcome × List (List Char) × List ConcatCmd :=
  if video_files.length < 2 then (.httpError 400, fs, [])
  else
    match resolveInputs fs video_files with
    | none => (.httpError 404, fs, [])
    | some _paths =>
      let out_name := ensureMp4 output_filename
      let output_path := pyJoin OUTPUT_DIR out_name
      let concat_list_path :=
        pyJoin OUTPUT_DIR (("concat_").data ++ uid ++ (".txt").data)
      let fs1 := insertFile fs concat_list_path
      let r := runConcat exitCopy exitEnc
      if r.1 then
        (.ok out_name, removeFile (insertFile fs1 output_path) concat_list_path, r.2)
      else
        (.exception, removeFile fs1 concat_list_path, r.2)

/-- api.py 944–951: every input must exist in the session directory. -/
def resolveSessionInputs (fs : List (List Char)) (sdir : List Char) :
    List (List Char) → Option (List (List Char))
  | [] => some []
  | n :: rest =>
    if fileExists fs (pyJoin sdir n) then
      (resolveSessionInputs fs sdir rest).map (pyJoin sdir n :: ·)
    else none

/-- `POST /session/merge/videos` (api.py 932–1011). -/
def session_merge_videos (session_id : List Char) (video_files : List (List Char))
    (output_filename uid : List Char) (exitCopy exitEnc : ℤ)
    (fs : List (List Char)) :
    MergeOutcome × List (List Char) × List ConcatCmd :=
  if video_files.length < 2 then (.httpError 400, fs, [])
  else
    let sdir := pyJoin SHARED_DIR session_id
    match resolveSessionInputs fs sdir video_files with
    | none => (.httpError 404, fs, [])
    | some _paths =>
      let out_name := ensureMp4 output_filename
      let output_path := pyJoin sdir out_name
      let concat_list_path := pyJoin sdir (("concat_").data ++ uid ++ (".txt").data)
      let fs1 := insertFile fs concat_list_path
      let r := runConcat exitCopy exitEnc
      if r.1 then
        (.ok out_name, removeFile (insertFile fs1 output_path) concat_list_path, r.2)
      else
        (.exception, removeFile fs1 concat_list_path, r.2)

/-- wan2 api.py 750: the project directory `outputs/proj_<project_id>`. -/
def projectDir (project_id : List Char) : List Char :=
  pyJoin OUTPUT_DIR (("proj_").data ++ project_id)

/-- wan2 api.py 757: membership in the glob `scene_*.mp4` of the project
directory (a direct child whose base name starts with `scene_` and ends with
`.mp4`). -/
def isSceneFile (project_dir p : List Char) : Bool :=
  (project_dir ++ [ '/' ]).isPrefixOf p &&
    (let base := p.drop (project_dir.length + 1)
     ("scene_").data.isPrefixOf base &&
       (".mp4").data.isSuffixOf base && !base.contains '/')

/-- `POST /merge/project/{project_id}` (wan2 api.py 735–855).  `projExists`
is `os.path.exists(project_dir)`; the by-sequence sort (lines 779–780) only
orders the concat list contents and is not tracked. -/
def merge_project_videos (project_id : List Char) (output_filename : Option (List Char))
    (timestamp : List Char) (projExists : Bool) (exitCopy exitEnc : ℤ)
    (fs : List (List Char)) :
    MergeOutcome × List (List Char) × List ConcatCmd :=
  if !projExists then (.httpError 404, fs, [])
  else
    let pdir := projectDir project_id
    let scenes := fs.filter (isSceneFile pdir)
    if scenes.length < 2 then (.httpError 400, fs, [])
    else
      let final_name := ensureMp4 (output_filename.getD (("final.mp4").data))
      let output_path := pyJoin pdir final_name
      let concat_list_path :=
        pyJoin pdir (("concat_").data ++ timestamp ++ (".txt").data)
      let fs1 := insertFile fs concat_list_path
      let r := runConcat exitCopy exitEnc
      if r.1 then
        (.ok final_name, removeFile (insertFile fs1 output_path) concat_list_path, r.2)
      else
        (.exception, removeFile fs1 concat_list_path, r.2)

/-- C6: every merge request with fewer than 2 input videos — or, for the
project concat, fewer than 2 `scene_*.mp4` files in the project directory —
is rejected with HTTP 400 before anything is written: the file system is
returned unchanged and no encoder invocation happens. -/
theorem merge_rejects_fewer_than_two
    (video_files : List (List Char)) (out uid sid pid ts : List Char)
    (outOpt : Option (List Char)) (ec ee : ℤ) (fs : List (List Char))
    (h : video_files.length < 2) :
    merge_videos video_files out uid ec ee fs = (.httpError 400, fs, []) ∧
    session_merge_videos sid video_files out uid ec ee fs = (.httpError 400, fs, []) ∧
    ((fs.filter (isSceneFile (projectDir pid))).length < 2 →
      merge_project_videos pid outOpt ts true ec ee fs = (.httpError 400, fs, [])) := by
  refine ⟨?_, ?_, ?_⟩
  · simp [merge_videos, h]
  · simp [session_merge_videos, h]
  · intro hs
    simp [merge_project_videos, hs]

/-- Witness for C6: one input video (and an empty project directory). -/
theorem merge_rejects_fewer_than_two_witness :
    merge_videos [("a.mp4").data] ("merged").data ("u1").data 0 0 [] =
      (.httpError 400, [], []) ∧
    session_merge_videos ("s1").data [("a.mp4").data] ("merged").data ("u1").data 0 0 [] =
      (.httpError 400, [], []) ∧
    ((([] : List (List Char)).filter (isSceneFile (projectDir ("p1").data))).length < 2 →
      merge_project_videos ("p1").data none ("t1").data true 0 0 [] =
        (.httpError 400, [], [])) := by
  have h := merge_rejects_fewer_than_two [("a.mp4").data] ("merged").data ("u1").data
    ("s1").data ("p1").data ("t1").data none 0 0 [] (by decide)
  exact ⟨h.1, h.2.1, fun hs => h.2.2 hs⟩

/-- C7: every concat operation invokes the encoder first with stream-copy;
the re-encode invocation (H.264 `libx264`, CRF 23, AAC 128k) happens exactly
when stream-copy exits nonzero; the operation fails only when the re-encode
also exits nonzero.  The merge endpoint's invocation log on a request that
reaches the encoder is exactly this two-step policy. -/
theorem concat_stream_copy_then_reencode (ec ee : ℤ) :
    ((runConcat ec ee).2.head? = some .streamCopy) ∧
    (ConcatCmd.reencode reencodeParams ∈ (runConcat ec ee).2 ↔ ec ≠ 0) ∧
    ((runConcat ec ee).1 = false ↔ (ec ≠ 0 ∧ ee ≠ 0)) ∧
    (∀ c ∈ (runConcat ec ee).2, c = .streamCopy ∨ c = .reencode reencodeParams) ∧
    reencodeParams =
      ⟨("libx264").data, ("fast").data, 23, ("aac").data, ("128k").data⟩ ∧
    (∀ video_files out uid fs paths, 2 ≤ video_files.length →
      resolveInputs fs video_files = some paths →
      (merge_videos video_files out uid ec ee fs).2.2 = (runConcat ec ee).2 ∧
      ((merge_videos video_files out uid ec ee fs).1 = .exception ↔
        (ec ≠ 0 ∧ ee ≠ 0))) := by
  have h3 : (runConcat ec ee).1 = false ↔ (ec ≠ 0 ∧ ee ≠ 0) := by
    by_cases hc : ec = 0 <;> by_cases he : ee = 0 <;> simp [runConcat, hc, he]
  refine ⟨?_, ?_, h3, ?_, rfl, ?_⟩
  · by_cases hc : ec = 0 <;> by_cases he : ee = 0 <;> simp [runConcat, hc, he]
  · by_cases hc : ec = 0 <;> by_cases he : ee = 0 <;> simp [runConcat, hc, he]
  · intro c hc
    by_cases h : ec = 0
    · simp [runConcat, h] at hc
      simp [hc]
    · by_cases he : ee = 0 <;> simp [runConcat, h, he] at hc <;>
        rcases hc with hc | hc <;> simp [hc]
  · intro video_files out uid fs paths hlen hres
    have hnl : ¬ (video_files.length < 2) := by omega
    constructor
    · simp only [merge_videos, if_neg hnl, hres]
      cases hb : (runConcat ec ee).1 <;> simp [hb]
    · simp only [merge_videos, if_neg hnl, hres]
      cases hb : (runConcat ec ee).1 with
      | false =>
        rw [if_neg Bool.false_ne_true]
        constructor
        · intro _
          exact h3.mp hb
        · intro _
          rfl
      | true =>
        rw [if_pos rfl]
        constructor
        · intro hcontra
          cases hcontra
        · intro hboth
          rw [h3.mpr hboth] at hb
          cases hb

/-- Witness for C7 with a failing stream-copy (`exit 1`) and a succeeding
re-encode (`exit 0`), on a two-video merge. -/
theorem concat_stream_copy_then_reencode_witness :
    (runConcat 1 0).2.head? = some .streamCopy ∧
    (ConcatCmd.reencode reencodeParams ∈ (runConcat 1 0).2 ↔ (1 : ℤ) ≠ 0) ∧
    (merge_videos [("a.mp4").data, ("b.mp4").data] ("m").data ("u").data 1 0
        [pyJoin UPLOAD_DIR ("a.mp4").data, pyJoin UPLOAD_DIR ("b.mp4").data]).2.2 =
      (runConcat 1 0).2 := by
  have h := concat_stream_copy_then_reencode 1 0
  refine ⟨h.1, h.2.1, ?_⟩
  exact (h.2.2.2.2.2 [("a.mp4").data, ("b.mp4").data] ("m").data ("u").data
    [pyJoin UPLOAD_DIR ("a.mp4").data, pyJoin UPLOAD_DIR ("b.mp4").data]
    [pyJoin UPLOAD_DIR ("a.mp4").data, pyJoin UPLOAD_DIR ("b.mp4").data]
    (by decide) (by decide)).1

theorem not_mem_removeFile (fs : List (List Char)) (p : List Char) :
    p ∉ removeFile fs p := by
  simp [removeFile, List.mem_filter]

/-- C10: each concat endpoint removes its temporary `concat_<id>.txt` file
before returning, on the success path and on every failure path: if the
concat list file was not present initially it is absent afterwards whatever
path the request takes, and on any request that gets as far as writing it
(valid inputs), it is absent afterwards unconditionally — for the plain
merge, the session merge, and the project concat alike. -/
theorem concat_list_file_removed
    (video_files : List (List Char)) (out uid sid pid ts : List Char)
    (outOpt : Option (List Char)) (ec ee : ℤ) (fs : List (List Char)) :
    (pyJoin OUTPUT_DIR (("concat_").data ++ uid ++ (".txt").data) ∉ fs →
      pyJoin OUTPUT_DIR (("concat_").data ++ uid ++ (".txt").data) ∉
        (merge_videos video_files out uid ec ee fs).2.1) ∧
    (2 ≤ video_files.length →
      (∃ paths, resolveInputs fs video_files = some paths) →
      pyJoin OUTPUT_DIR (("concat_").data ++ uid ++ (".txt").data) ∉
        (merge_videos video_files out uid ec ee fs).2.1) ∧
    (pyJoin (pyJoin SHARED_DIR sid) (("concat_").data ++ uid ++ (".txt").data) ∉ fs →
      pyJoin (pyJoin SHARED_DIR sid) (("concat_").data ++ uid ++ (".txt").data) ∉
        (session_merge_videos sid video_files out uid ec ee fs).2.1) ∧
    (2 ≤ video_files.length →
      (∃ paths, resolveSessionInputs fs (pyJoin SHARED_DIR sid) video_files = some paths) →
      pyJoin (pyJoin SHARED_DIR sid) (("concat_").data ++ uid ++ (".txt").data) ∉
        (session_merge_videos sid video_files out uid ec ee fs).2.1) ∧
    (pyJoin (projectDir pid) (("concat_").data ++ ts ++ (".txt").data) ∉ fs →
      ∀ pe : Bool,
        pyJoin (projectDir pid) (("concat_").data ++ ts ++ (".txt").data) ∉
          (merge_project_videos pid outOpt ts pe ec ee fs).2.1) ∧
    (2 ≤ (fs.filter (isSceneFile (projectDir pid))).length →
      pyJoin (projectDir pid) (("concat_").data ++ ts ++ (".txt").data) ∉
        (merge_project_videos pid outOpt ts true ec ee fs).2.1) := by
  refine ⟨?_, ?_, ?_, ?_, ?_, ?_⟩
  · intro hcp
    by_cases h2 : video_files.length < 2
    · simpa [merge_videos, h2] using hcp
    · cases hres : resolveInputs fs video_files with
      | none => simpa [merge_videos, h2, hres] using hcp
      | some paths =>
        simp only [merge_videos, if_neg h2, hres]
        cases hb : (runConcat ec ee).1 <;>
          simp [hb, not_mem_removeFile]
  · intro hlen ⟨paths, hres⟩
    have h2 : ¬ (video_files.length < 2) := by omega
    simp only [merge_videos, if_neg h2, hres]
    cases hb : (runConcat ec ee).1 <;> simp [hb, not_mem_removeFile]
  · intro hcp
    by_cases h2 : video_files.length < 2
    · simpa [session_merge_videos, h2] using hcp
    · cases hres : resolveSessionInputs fs (pyJoin SHARED_DIR sid) video_files with
      | none => simpa [session_merge_videos, h2, hres] using hcp
      | some paths =>
        simp only [session_merge_videos, if_neg h2, hres]
        cases hb : (runConcat ec ee).1 <;> simp [hb, not_mem_removeFile]
  · intro hlen ⟨paths, hres⟩
    have h2 : ¬ (video_files.length < 2) := by omega
    simp only [session_merge_videos, if_neg h2, hres]
    cases hb : (runConcat ec ee).1 <;> simp [hb, not_mem_removeFile]
  · intro hcp pe
    cases pe with
    | false => simpa [merge_project_videos] using hcp
    | true =>
      by_cases h2 : (fs.filter (isSceneFile (projectDir pid))).length < 2
      · simpa [merge_project_videos, h2] using hcp
      · simp only [merge_project_videos, Bool.not_true, Bool.false_eq_true,
          if_false, if_neg h2]
        cases hb : (runConcat ec ee).1 <;> simp [hb, not_mem_removeFile]
  · intro hlen
    have h2 : ¬ ((fs.filter (isSceneFile (projectDir pid))).length < 2) := by omega
    simp only [merge_project_videos, Bool.not_true, Bool.false_eq_true,
      if_false, if_neg h2]
    cases hb : (runConcat ec ee).1 <;> simp [hb, not_mem_removeFile]

/-- Witness for C10: a two-video merge in which both encoder runs fail
(exit 1) still leaves no concat list file behind. -/
theorem concat_list_file_removed_witness :
    pyJoin OUTPUT_DIR (("concat_").data ++ ("u").data ++ (".txt").data) ∉
      (merge_videos [("a.mp4").data, ("b.mp4").data] ("m").data ("u").data 1 1
        [pyJoin UPLOAD_DIR ("a.mp4").data, pyJoin UPLOAD_DIR ("b.mp4").data]).2.1 :=
  (concat_list_file_removed [("a.mp4").data, ("b.mp4").data] ("m").data ("u").data
    ("s1").data ("p1").data ("t").data none 1 1
    [pyJoin UPLOAD_DIR ("a.mp4").data, pyJoin UPLOAD_DIR ("b.mp4").data]).2.1
    (by decide)
    ⟨[pyJoin UPLOAD_DIR ("a.mp4").data, pyJoin UPLOAD_DIR ("b.mp4").data], by decide⟩
